import Mathlib

/-!
Shallow embedding of the kinetic-typography module (`TextScramble`,
`WordRotator`, `initKineticText`) of the lumina-digital repository.

Modelling conventions:
* `Math.random()` returns a double drawn uniformly from the dyadic rationals
  `r / 2^53` with `0 ≤ r < 2^53`.  A draw is therefore modelled as its
  numerator `r : Nat`, and the whole generator as a stream `g : Nat → Nat`
  together with a running draw index `k`; a *valid* stream has every value
  below `2^53`.  `Math.floor(q * n)` then is exact natural division
  `r * n / 2^53`, and `q < 0.28` is `r * 100 < 28 * 2^53` (products are
  modelled exactly; double rounding on the product cannot change any of the
  proved bounds).
* The element's displayed content (`el.innerHTML` / `el.textContent`) is
  modelled as a list of `Piece`s: a plain character, or a character wrapped in
  the `<span class="scramble-char">…</span>` styling markup.  `textContentOf`
  recovers the `textContent` view (span contents included, markup stripped).
* The pending `requestAnimationFrame` handle (`this.frameRequest`) is modelled
  by the boolean `scheduled`; `cancelAnimationFrame` clears it.
* Each call to `setText` creates a fresh promise; `promises` records, per
  session in creation order, how many times that session's `resolve` has been
  invoked.  The current session's promise is the last entry.
* JS strings are modelled as `List Char` (all characters appearing in the
  sources are single UTF-16 code units, so positional indexing agrees).
-/

/-- One rendered fragment of the element's content: a plain character, or a
scrambled character wrapped in the styling span (`none` models the JS value
`undefined` interpolated into the span). -/
inductive Piece where
  | plain (c : Char)
  | scramble (c : Option Char)
  deriving DecidableEq, Repr

/-- The `textContent` view of one piece: span markup is stripped, leaving the
character; an `undefined` interpolation renders as the string "undefined". -/
def Piece.text : Piece → List Char
  | .plain c => [c]
  | .scramble (some c) => [c]
  | .scramble none => "undefined".data

/-- The `textContent` of the whole element content. -/
def textContentOf (ps : List Piece) : List Char :=
  (ps.map Piece.text).flatten

/-- One queue entry built by `TextScramble.setText` (the JS object
`{ from, to, start, end }`, plus the lazily added `char` field).  `none` for
`fromCh`/`toCh` models the empty string `''` used when the position is past
the end of the old/new text. -/
structure ScrambleTask where
  fromCh : Option Char
  toCh : Option Char
  start : Nat
  endF : Nat
  char : Option Char
  deriving DecidableEq, Repr

/-- The random stream standing for successive `Math.random()` draw
numerators (each draw is the dyadic rational `g k / 2^53`). -/
abbrev RNG := Nat → Nat

/-- A stream is valid when every draw numerator is below `2^53`, i.e. every
draw lies in `[0, 1)`, the documented range of `Math.random()`. -/
def validRNG (g : RNG) : Prop := ∀ n, g n < 2 ^ 53

/-- `Math.floor((r / 2^53) * n)`, computed exactly: natural floor division. -/
def jsFloorMul (r n : Nat) : Nat := r * n / 2 ^ 53

/-- The comparison `(r / 2^53) < 0.28` of `Math.random() < 0.28`, cleared of
denominators. -/
def randBelow28 (r : Nat) : Bool := r * 100 < 28 * 2 ^ 53

/-- The fixed glyph set `this.chars = '!<>-_\\/[]{}—=+*^?#'` (18 characters;
the em dash is a single UTF-16 code unit). -/
def scrambleChars : List Char :=
  ['!', '<', '>', '-', '_', '\\', '/', '[', ']', '{', '}', '—', '=', '+', '*', '^', '?', '#']

/-- `this.chars[Math.floor(Math.random() * this.chars.length)]`: indexing a JS
string out of bounds yields `undefined`, modelled by `Option`. -/
def pickChar (r : Nat) : Option Char :=
  scrambleChars.get? (jsFloorMul r scrambleChars.length)

/-- State of one `TextScramble` instance.  `el` is the element's rendered
content, `scheduled` whether a frame callback is pending, and `promises` the
per-session resolution counts (see the module docstring). -/
structure TextScramble where
  el : List Piece
  frame : Nat
  queue : List ScrambleTask
  scheduled : Bool
  promises : List Nat
  deriving DecidableEq, Repr

/-- `new TextScramble(element)`: no queue, frame 0, no pending frame, no
promise yet. -/
def TextScramble.init (el : List Piece) : TextScramble :=
  { el := el, frame := 0, queue := [], scheduled := false, promises := [] }

/-- Number of times the *current* session's `resolve` has been called. -/
def currentCount (s : TextScramble) : Nat := (s.promises.getLast?).getD 0

/-- Increment the last entry (calling `this.resolve()` on the current
session's promise). -/
def bumpLast : List Nat → List Nat
  | [] => []
  | [n] => [n + 1]
  | n :: ns => n :: bumpLast ns

/-- The body of the per-task branch of `TextScramble.update` (lines 86–99):
given the current frame and one task, produce the updated task, the pieces it
contributes to the output, whether it counted as complete, and the next draw
index.  `Math.random()` is consumed exactly as in the source: the `||` in
`if (!char || Math.random() < 0.28)` short-circuits, and a fresh glyph pick
consumes one further draw. -/
def stepTask (frame : Nat) (g : RNG) (t : ScrambleTask) (k : Nat) :
    ScrambleTask × List Piece × Bool × Nat :=
  if t.endF ≤ frame then
    (t, (t.toCh.map Piece.plain).toList, true, k)
  else if t.start ≤ frame then
    match t.char with
    | none =>
        let c := pickChar (g k)
        ({ t with char := c }, [Piece.scramble c], false, k + 1)
    | some c0 =>
        if randBelow28 (g k) then
          let c := pickChar (g (k + 1))
          ({ t with char := c }, [Piece.scramble c], false, k + 2)
        else
          (t, [Piece.scramble (some c0)], false, k + 1)
  else
    (t, (t.fromCh.map Piece.plain).toList, false, k)

/-- The loop of `TextScramble.update` over the queue: returns the mutated
queue, the per-position output piece lists, the `complete` counter and the
next draw index. -/
def updateTasks (frame : Nat) (g : RNG) :
    List ScrambleTask → Nat → List ScrambleTask × List (List Piece) × Nat × Nat
  | [], k => ([], [], 0, k)
  | t :: ts, k =>
      let r := stepTask frame g t k
      let rest := updateTasks frame g ts r.2.2.2
      (r.1 :: rest.1, r.2.1 :: rest.2.1,
       (if r.2.2.1 then 1 else 0) + rest.2.2.1, rest.2.2.2)

/-- `TextScramble.update` (lines 81–110): render the frame; if every task is
complete, resolve the current promise and stop (no further frame is
scheduled), otherwise schedule the next frame and increment the counter. -/
def update (s : TextScramble) (g : RNG) (k : Nat) : TextScramble × Nat :=
  let r := updateTasks s.frame g s.queue k
  if r.2.2.1 = s.queue.length then
    ({ s with el := r.2.1.flatten, queue := r.1, scheduled := false,
              promises := bumpLast s.promises }, r.2.2.2)
  else
    ({ s with el := r.2.1.flatten, queue := r.1, scheduled := true,
              frame := s.frame + 1 }, r.2.2.2)

/-- The queue-building loop of `setText` (lines 66–72), for positions
`i, i+1, …` with `fuel` positions to go: each position consumes two draws,
`start = Math.floor(Math.random()*40)` and `end = start +
Math.floor(Math.random()*40)`. -/
def buildQueue (oldText newText : List Char) (g : RNG) :
    Nat → Nat → Nat → List ScrambleTask × Nat
  | _, 0, k => ([], k)
  | i, fuel + 1, k =>
      let s := jsFloorMul (g k) 40
      let e := s + jsFloorMul (g (k + 1)) 40
      let rest := buildQueue oldText newText g (i + 1) fuel (k + 2)
      (⟨oldText.get? i, newText.get? i, s, e, none⟩ :: rest.1, rest.2)

/-- `TextScramble.setText` up to but excluding its final synchronous
`this.update()` call: read `oldText` from the rendered content, create a fresh
promise, rebuild the queue, cancel any pending frame, reset the frame
counter. -/
def setTextPre (s : TextScramble) (newText : List Char) (g : RNG) (k : Nat) :
    TextScramble × Nat :=
  let oldText := textContentOf s.el
  let len := max oldText.length newText.length
  let r := buildQueue oldText newText g 0 len k
  ({ s with queue := r.1, frame := 0, scheduled := false,
            promises := s.promises ++ [0] }, r.2)

/-- `TextScramble.setText` (lines 59–79): build the session, then run the
first `update` synchronously. -/
def setText (s : TextScramble) (newText : List Char) (g : RNG) (k : Nat) :
    TextScramble × Nat :=
  let r := setTextPre s newText g k
  update r.1 g r.2

/-- Largest `end` frame of the queue (`0` for the empty queue): the frame at
which the whole session is complete. -/
def maxEnd (q : List ScrambleTask) : Nat := (q.map ScrambleTask.endF).foldr max 0

/-- The host's animation-frame driver: fire up to `n` animation frames; each
fires only when a callback is scheduled (a resolved session schedules no
further frame, so the state is then a fixed point). -/
def runFrames (g : RNG) : Nat → TextScramble × Nat → TextScramble × Nat
  | 0, sk => sk
  | n + 1, (s, k) => if s.scheduled then runFrames g n (update s g k) else (s, k)

/-- Events that can act on one `TextScramble` instance: an animation frame
firing, or a caller invoking `setText`. -/
inductive SOp where
  | frameFire
  | set (t : List Char)

/-- Apply one event. -/
def applySOp (g : RNG) : SOp → TextScramble × Nat → TextScramble × Nat
  | .frameFire, (s, k) => if s.scheduled then update s g k else (s, k)
  | .set t, (s, k) => setText s t g k

/-- Apply a sequence of events in order. -/
def applySOps (g : RNG) : List SOp → TextScramble × Nat → TextScramble × Nat
  | [], sk => sk
  | o :: os, sk => applySOps g os (applySOp g o sk)

example : jsFloorMul (2 ^ 52) 40 = 20 := by decide
example : jsFloorMul (2 ^ 48) 40 = 1 := by decide
example : pickChar (2 ^ 48) = some '!' := by decide
example : scrambleChars.length = 18 := by decide

/-- State of one `WordRotator` instance (lines 116–146).  `timeoutPending`
models a live `setTimeout` (stale, already-fired ids that `clearTimeout`
would ignore are modelled as `false`); `handlerFor` records the promise index
(into `scr.promises`) of a `.then` continuation that has not yet run.  The
only JS failure mode in scope is `setText(undefined)` when `words` is
indexed out of bounds; a thrown `TypeError` is modelled as `Except.error`
with payload `()`. -/
structure WordRotator where
  scr : TextScramble
  words : List (List Char)
  currentIndex : Nat
  interval : Nat
  timeoutPending : Bool
  handlerFor : Option Nat
  deriving DecidableEq, Repr

/-- `WordRotator.next` (lines 136–141): start a transition to
`words[currentIndex]`, attach the `.then` continuation to the returned
promise, then advance `currentIndex` modulo the list length.  If
`words[currentIndex]` is `undefined` (index out of bounds), `setText` throws
(`undefined.length`); the continuation and index advance never happen. -/
def WordRotator.next (r : WordRotator) (g : RNG) (k : Nat) :
    Except Unit (WordRotator × Nat) :=
  match r.words.get? r.currentIndex with
  | none => .error ()
  | some w =>
      let sk := setText r.scr w g k
      .ok ({ r with scr := sk.1,
                    handlerFor := some (sk.1.promises.length - 1),
                    currentIndex := (r.currentIndex + 1) % r.words.length }, sk.2)

/-- The `WordRotator` constructor (lines 117–130): initialise fields, then
`start()`, which calls `next()`. -/
def WordRotator.create (el : List Piece) (words : List (List Char))
    (interval : Nat) (g : RNG) (k : Nat) : Except Unit (WordRotator × Nat) :=
  WordRotator.next
    { scr := TextScramble.init el, words := words, currentIndex := 0,
      interval := interval, timeoutPending := false, handlerFor := none } g k

/-- Host event: an animation frame fires (runs the scrambler's scheduled
`update`, if any). -/
def WordRotator.fireFrame (r : WordRotator) (g : RNG) (k : Nat) :
    WordRotator × Nat :=
  if r.scr.scheduled then
    let sk := update r.scr g k
    ({ r with scr := sk.1 }, sk.2)
  else (r, k)

/-- Host event: the microtask queue runs.  A pending `.then` continuation
fires once its promise has been resolved; it sets the timeout for the delayed
advance to the next word (line 138). -/
def WordRotator.microtask (r : WordRotator) : WordRotator :=
  match r.handlerFor with
  | some i =>
      if 1 ≤ (r.scr.promises.get? i).getD 0 then
        { r with timeoutPending := true, handlerFor := none }
      else r
  | none => r

/-- Host event: the `setTimeout` delay elapses; the timeout fires and calls
`next()` (line 138). -/
def WordRotator.fireTimeout (r : WordRotator) (g : RNG) (k : Nat) :
    Except Unit (WordRotator × Nat) :=
  if r.timeoutPending then
    WordRotator.next { r with timeoutPending := false } g k
  else .ok (r, k)

/-- `WordRotator.stop` (lines 143–145): `clearTimeout(this.timeoutId)` — it
cancels a live timeout and nothing else (an in-flight scramble animation and
an attached `.then` continuation are untouched). -/
def WordRotator.stopRot (r : WordRotator) : WordRotator :=
  { r with timeoutPending := false }

/-- Events that can act on one `WordRotator`: an animation frame, the
microtask queue draining, a timeout firing, or the owner calling `stop()`. -/
inductive ROp where
  | frameFire
  | microFire
  | timeoutFire
  | stopCall

/-- Apply one rotator event. -/
def applyROp (g : RNG) : ROp → WordRotator × Nat → Except Unit (WordRotator × Nat)
  | .frameFire, (r, k) => .ok (WordRotator.fireFrame r g k)
  | .microFire, (r, k) => .ok (WordRotator.microtask r, k)
  | .timeoutFire, (r, k) => WordRotator.fireTimeout r g k
  | .stopCall, (r, k) => .ok (WordRotator.stopRot r, k)

/-- Apply a sequence of rotator events in order (an uncaught throw aborts the
rest). -/
def applyROps (g : RNG) : List ROp → Except Unit (WordRotator × Nat) →
    Except Unit (WordRotator × Nat)
  | [], e => e
  | o :: os, e => applyROps g os (e.bind (applyROp g o))

/-- The word-rotation branch of `initKineticText` (lines 263–272): a
`WordRotator` is constructed only when the parsed word list is non-empty;
for an empty list nothing at all happens (`none`). -/
def initRotate (el : List Piece) (words : List (List Char)) (interval : Nat)
    (g : RNG) (k : Nat) : Except Unit (Option (WordRotator × Nat)) :=
  if words.length > 0 then (WordRotator.create el words interval g k).map some
  else .ok none

/-- The output rendered by an update in which every task is complete: each
position contributes exactly its `to` character (nothing for a removed
position). -/
def finalRender (q : List ScrambleTask) : List Piece :=
  (q.map (fun t => (t.toCh.map Piece.plain).toList)).flatten

/-- Fire `n` animation frames on a rotator (each one runs the scrambler's
scheduled update, if any). -/
def rotFrames (g : RNG) : Nat → WordRotator × Nat → WordRotator × Nat
  | 0, rk => rk
  | n + 1, (r, k) => rotFrames g n (WordRotator.fireFrame r g k)

/-- A concrete two-word rotator start state, used to instantiate general
theorems. -/
def sampleRotator : WordRotator :=
  { scr := TextScramble.init [], words := [['A'], ['B']], currentIndex := 0,
    interval := 3000, timeoutPending := false, handlerFor := none }

/-- The rotator state right after `sampleRotator`'s first `next()` under the
constant stream `2^48` (every task gets `start = 1`, `end = 2`): the
transition to "A" is in flight, the completion continuation is attached to
promise 0, and the index already points at the next word. -/
def sampleRotatorMid : WordRotator :=
  { scr := { el := [], frame := 1,
             queue := [⟨none, some 'A', 1, 2, none⟩], scheduled := true,
             promises := [0] },
    words := [['A'], ['B']], currentIndex := 1, interval := 3000,
    timeoutPending := false, handlerFor := some 0 }

/-- A concrete mid-session scrambler state (frame 3 of a session whose single
task resolves at frame 7), used to instantiate general theorems. -/
def sampleMid : TextScramble :=
  { el := [Piece.plain 'A'], frame := 3,
    queue := [⟨some 'A', some 'Z', 1, 7, none⟩], scheduled := true,
    promises := [0] }

/-! ### Lemmas: one task step -/

theorem stepTask_frozen (f : Nat) (g : RNG) (t : ScrambleTask) (k : Nat)
    (h : t.endF ≤ f) :
    stepTask f g t k = (t, (t.toCh.map Piece.plain).toList, true, k) := by
  simp [stepTask, h]

theorem stepTask_pending (f : Nat) (g : RNG) (t : ScrambleTask) (k : Nat)
    (h1 : f < t.start) (h2 : f < t.endF) :
    stepTask f g t k = (t, (t.fromCh.map Piece.plain).toList, false, k) := by
  simp [stepTask, Nat.not_le.mpr h2, Nat.not_le.mpr h1]

theorem stepTask_skeleton (f : Nat) (g : RNG) (t : ScrambleTask) (k : Nat) :
    (stepTask f g t k).1.fromCh = t.fromCh ∧ (stepTask f g t k).1.toCh = t.toCh ∧
    (stepTask f g t k).1.start = t.start ∧ (stepTask f g t k).1.endF = t.endF := by
  obtain ⟨fc, tc, st, en, ch⟩ := t
  cases ch <;> simp [stepTask] <;> split_ifs <;> simp

theorem stepTask_completeFlag (f : Nat) (g : RNG) (t : ScrambleTask) (k : Nat) :
    (stepTask f g t k).2.2.1 = decide (t.endF ≤ f) := by
  by_cases h : t.endF ≤ f
  · simp [stepTask, h]
  · obtain ⟨fc, tc, st, en, ch⟩ := t
    cases ch <;> simp [stepTask, h] at h ⊢ <;> split_ifs <;> simp

/-! ### Lemmas: the update loop over the queue -/

theorem updateTasks_length (f : Nat) (g : RNG) (q : List ScrambleTask) (k : Nat) :
    (updateTasks f g q k).1.length = q.length := by
  induction q generalizing k with
  | nil => rfl
  | cons t ts ih => simp [updateTasks, ih]

theorem updateTasks_out_length (f : Nat) (g : RNG) (q : List ScrambleTask) (k : Nat) :
    (updateTasks f g q k).2.1.length = q.length := by
  induction q generalizing k with
  | nil => rfl
  | cons t ts ih => simp [updateTasks, ih]

theorem updateTasks_map_endF (f : Nat) (g : RNG) (q : List ScrambleTask) (k : Nat) :
    (updateTasks f g q k).1.map ScrambleTask.endF = q.map ScrambleTask.endF := by
  induction q generalizing k with
  | nil => rfl
  | cons t ts ih => simp [updateTasks, ih, (stepTask_skeleton f g t k).2.2.2]

theorem updateTasks_map_toCh (f : Nat) (g : RNG) (q : List ScrambleTask) (k : Nat) :
    (updateTasks f g q k).1.map ScrambleTask.toCh = q.map ScrambleTask.toCh := by
  induction q generalizing k with
  | nil => rfl
  | cons t ts ih => simp [updateTasks, ih, (stepTask_skeleton f g t k).2.1]

theorem updateTasks_mem_skeleton (f : Nat) (g : RNG) (q : List ScrambleTask) (k : Nat) :
    ∀ t' ∈ (updateTasks f g q k).1, ∃ t ∈ q,
      t'.fromCh = t.fromCh ∧ t'.toCh = t.toCh ∧ t'.start = t.start ∧ t'.endF = t.endF := by
  induction q generalizing k with
  | nil => intro t' h; simp [updateTasks] at h
  | cons t ts ih =>
      intro t' h
      simp only [updateTasks, List.mem_cons] at h
      rcases h with h | h
      · exact ⟨t, List.mem_cons_self t ts, h ▸ stepTask_skeleton f g t k⟩
      · obtain ⟨t0, ht0, hsk⟩ := ih _ t' h
        exact ⟨t0, List.mem_cons_of_mem t ht0, hsk⟩

theorem updateTasks_comp (f : Nat) (g : RNG) (q : List ScrambleTask) (k : Nat) :
    (updateTasks f g q k).2.2.1 = q.countP (fun t => decide (t.endF ≤ f)) := by
  induction q generalizing k with
  | nil => rfl
  | cons t ts ih =>
      simp [updateTasks, ih, List.countP_cons, stepTask_completeFlag]
      by_cases h : t.endF ≤ f <;> simp [h, Nat.add_comm]

theorem updateTasks_comp_eq_length_iff (f : Nat) (g : RNG) (q : List ScrambleTask)
    (k : Nat) :
    (updateTasks f g q k).2.2.1 = q.length ↔ ∀ t ∈ q, t.endF ≤ f := by
  rw [updateTasks_comp, List.countP_eq_length]
  simp

theorem updateTasks_all_frozen (f : Nat) (g : RNG) (q : List ScrambleTask) (k : Nat)
    (h : ∀ t ∈ q, t.endF ≤ f) :
    updateTasks f g q k =
      (q, q.map (fun t => (t.toCh.map Piece.plain).toList), q.length, k) := by
  induction q generalizing k with
  | nil => rfl
  | cons t ts ih =>
      have ht : t.endF ≤ f := h t (List.mem_cons_self t ts)
      have hts : ∀ t' ∈ ts, t'.endF ≤ f := fun t' h' => h t' (List.mem_cons_of_mem t h')
      simp [updateTasks, stepTask_frozen f g t k ht, ih _ hts, Nat.add_comm]

theorem updateTasks_get?_frozen (f : Nat) (g : RNG) (q : List ScrambleTask) :
    ∀ (k i : Nat) (t : ScrambleTask), q.get? i = some t → t.endF ≤ f →
      (updateTasks f g q k).1.get? i = some t ∧
      (updateTasks f g q k).2.1.get? i = some ((t.toCh.map Piece.plain).toList) := by
  induction q with
  | nil => intro k i t h; simp at h
  | cons t0 ts ih =>
      intro k i t h hfz
      cases i with
      | zero =>
          simp only [List.get?_cons_zero, Option.some.injEq] at h
          subst h
          simp [updateTasks, stepTask_frozen f g t0 k hfz]
      | succ j =>
          rw [List.get?_cons_succ] at h
          have h2 := ih ((stepTask f g t0 k).2.2.2) j t h hfz
          simp only [updateTasks, List.get?_cons_succ]
          exact h2

/-! ### Lemmas: maxEnd, bumpLast, currentCount -/

theorem maxEnd_le_iff (q : List ScrambleTask) (f : Nat) :
    maxEnd q ≤ f ↔ ∀ t ∈ q, t.endF ≤ f := by
  induction q with
  | nil => simp [maxEnd]
  | cons t ts ih => simp [maxEnd, Nat.max_le] at ih ⊢; intro _; exact ih

theorem maxEnd_eq_of_map_endF {q q' : List ScrambleTask}
    (h : q.map ScrambleTask.endF = q'.map ScrambleTask.endF) : maxEnd q = maxEnd q' := by
  simp [maxEnd, h]

theorem bumpLast_length (l : List Nat) : (bumpLast l).length = l.length := by
  induction l with
  | nil => rfl
  | cons n ns ih =>
      cases ns with
      | nil => rfl
      | cons m ms => simpa [bumpLast] using ih

theorem bumpLast_append (l : List Nat) (c : Nat) :
    bumpLast (l ++ [c]) = l ++ [c + 1] := by
  induction l with
  | nil => rfl
  | cons n ns ih =>
      cases ns with
      | nil => simp [bumpLast, ih]
      | cons m ms => simp [bumpLast] at ih ⊢; exact ih

theorem bumpLast_get?_lt (l : List Nat) :
    ∀ i, i + 1 < l.length → (bumpLast l).get? i = l.get? i := by
  induction l with
  | nil => intro i h; simp at h
  | cons n ns ih =>
      intro i h
      cases ns with
      | nil => simp at h
      | cons m ms =>
          cases i with
          | zero => rfl
          | succ j =>
              have := ih j (by simpa using Nat.lt_of_succ_lt_succ h)
              simpa [bumpLast] using this

theorem currentCount_append (l : List Nat) (c : Nat) :
    currentCount { el := [], frame := 0, queue := [], scheduled := false,
                   promises := l ++ [c] } = c := by
  simp [currentCount]

/-! ### Lemmas: the per-frame update -/

@[simp] theorem setTextPre_fst_frame (s : TextScramble) (nt : List Char) (g : RNG)
    (k : Nat) : (setTextPre s nt g k).1.frame = 0 := rfl

@[simp] theorem setTextPre_fst_scheduled (s : TextScramble) (nt : List Char) (g : RNG)
    (k : Nat) : (setTextPre s nt g k).1.scheduled = false := rfl

@[simp] theorem setTextPre_fst_promises (s : TextScramble) (nt : List Char) (g : RNG)
    (k : Nat) : (setTextPre s nt g k).1.promises = s.promises ++ [0] := rfl

@[simp] theorem setTextPre_fst_el (s : TextScramble) (nt : List Char) (g : RNG)
    (k : Nat) : (setTextPre s nt g k).1.el = s.el := rfl

theorem update_of_complete (s : TextScramble) (g : RNG) (k : Nat)
    (h : ∀ t ∈ s.queue, t.endF ≤ s.frame) :
    update s g k = ({ s with el := finalRender s.queue, queue := s.queue,
                             scheduled := false,
                             promises := bumpLast s.promises }, k) := by
  simp [update, updateTasks_all_frozen s.frame g s.queue k h, finalRender]

theorem update_of_incomplete (s : TextScramble) (g : RNG) (k : Nat)
    (h : ¬ ∀ t ∈ s.queue, t.endF ≤ s.frame) :
    (update s g k).1.scheduled = true ∧ (update s g k).1.frame = s.frame + 1 ∧
    (update s g k).1.promises = s.promises ∧
    (update s g k).1.queue.map ScrambleTask.endF = s.queue.map ScrambleTask.endF ∧
    (update s g k).1.queue.map ScrambleTask.toCh = s.queue.map ScrambleTask.toCh := by
  have hc : ¬ (updateTasks s.frame g s.queue k).2.2.1 = s.queue.length := by
    rw [updateTasks_comp_eq_length_iff]; exact h
  simp [update, hc, updateTasks_map_endF, updateTasks_map_toCh]

theorem update_promises_cases (s : TextScramble) (g : RNG) (k : Nat) :
    (update s g k).1.promises = s.promises ∨
    (update s g k).1.promises = bumpLast s.promises := by
  by_cases h : (updateTasks s.frame g s.queue k).2.2.1 = s.queue.length
  · right; simp [update, h]
  · left; simp [update, h]

theorem update_frame_mono (s : TextScramble) (g : RNG) (k : Nat) :
    s.frame ≤ (update s g k).1.frame := by
  by_cases h : (updateTasks s.frame g s.queue k).2.2.1 = s.queue.length
  · simp [update, h]
  · simp [update, h]

theorem bumpLast_getLastD (l : List Nat) (h : l ≠ []) :
    (bumpLast l).getLast?.getD 0 = l.getLast?.getD 0 + 1 := by
  induction l with
  | nil => cases h rfl
  | cons n ns ih =>
      cases ns with
      | nil => simp [bumpLast]
      | cons m ms =>
          have h2 := ih (by simp)
          cases ms with
          | nil => simp [bumpLast]
          | cons m2 ms2 => simpa [bumpLast, List.getLast?_cons_cons] using h2

theorem update_currentCount_iff (s : TextScramble) (g : RNG) (k : Nat)
    (hne : s.promises ≠ []) :
    (currentCount (update s g k).1 = currentCount s + 1 ↔
      ∀ t ∈ s.queue, t.endF ≤ s.frame) := by
  by_cases h : ∀ t ∈ s.queue, t.endF ≤ s.frame
  · have hc : currentCount (update s g k).1 = currentCount s + 1 := by
      rw [update_of_complete s g k h]
      simpa [currentCount] using bumpLast_getLastD s.promises hne
    exact iff_of_true hc h
  · have h2 := update_of_incomplete s g k h
    have hc : currentCount (update s g k).1 = currentCount s := by
      simp [currentCount, h2.2.2.1]
    refine iff_of_false (fun he => ?_) h
    omega

theorem update_scheduled_of_complete (s : TextScramble) (g : RNG) (k : Nat)
    (h : ∀ t ∈ s.queue, t.endF ≤ s.frame) :
    (update s g k).1.scheduled = false := by
  rw [update_of_complete s g k h]

/-! ### Lemmas: the animation-frame driver -/

theorem runFrames_unsched (g : RNG) (n : Nat) (s : TextScramble) (k : Nat)
    (h : s.scheduled = false) : runFrames g n (s, k) = (s, k) := by
  cases n <;> simp [runFrames, h]

theorem runFrames_add (g : RNG) (a b : Nat) (sk : TextScramble × Nat) :
    runFrames g (a + b) sk = runFrames g b (runFrames g a sk) := by
  induction a generalizing sk with
  | zero => simp [runFrames]
  | succ a ih =>
      obtain ⟨s, k⟩ := sk
      by_cases h : s.scheduled
      · have he : a + 1 + b = (a + b) + 1 := by omega
        rw [he]
        simp only [runFrames, h, if_true]
        exact ih _
      · simp only [Bool.not_eq_true] at h
        rw [runFrames_unsched g (a + 1 + b) s k h, runFrames_unsched g (a + 1) s k h,
            runFrames_unsched g b s k h]

theorem finalRender_eq_map (q : List ScrambleTask) :
    finalRender q =
      ((q.map ScrambleTask.toCh).map (fun oc => (oc.map Piece.plain).toList)).flatten := by
  simp [finalRender, List.map_map]; rfl

theorem finalRender_congr {q q' : List ScrambleTask}
    (h : q.map ScrambleTask.toCh = q'.map ScrambleTask.toCh) :
    finalRender q = finalRender q' := by
  rw [finalRender_eq_map, finalRender_eq_map, h]

theorem runFrames_complete (g : RNG) : ∀ (fuel : Nat) (s : TextScramble) (k : Nat),
    s.scheduled = true → 1 ≤ fuel → maxEnd s.queue + 1 ≤ s.frame + fuel →
    (runFrames g fuel (s, k)).1.scheduled = false ∧
    (runFrames g fuel (s, k)).1.promises = bumpLast s.promises ∧
    (runFrames g fuel (s, k)).1.el = finalRender s.queue ∧
    (runFrames g fuel (s, k)).1.queue.map ScrambleTask.toCh
      = s.queue.map ScrambleTask.toCh := by
  intro fuel
  induction fuel with
  | zero => intro s k _ h1 _; omega
  | succ fuel ih =>
      intro s k hs _ hle
      by_cases hall : ∀ t ∈ s.queue, t.endF ≤ s.frame
      · simp only [runFrames, hs, if_true]
        rw [update_of_complete s g k hall,
            runFrames_unsched g fuel _ k rfl]
        exact ⟨rfl, rfl, rfl, rfl⟩
      · have hmax : ¬ maxEnd s.queue ≤ s.frame := fun hm =>
          hall ((maxEnd_le_iff _ _).1 hm)
        have hupd := update_of_incomplete s g k hall
        have hmax2 : maxEnd (update s g k).1.queue = maxEnd s.queue :=
          maxEnd_eq_of_map_endF hupd.2.2.2.1
        have h1 : 1 ≤ fuel := by omega
        have hle2 : maxEnd (update s g k).1.queue + 1 ≤ (update s g k).1.frame + fuel := by
          rw [hmax2, hupd.2.1]; omega
        have IH := ih (update s g k).1 (update s g k).2 hupd.1 h1 hle2
        simp only [runFrames, hs, if_true]
        refine ⟨IH.1, ?_, ?_, ?_⟩
        · rw [IH.2.1, hupd.2.2.1]
        · rw [IH.2.2.1, finalRender_congr hupd.2.2.2.2]
        · rw [IH.2.2.2, hupd.2.2.2.2]

theorem runFrames_progress (g : RNG) : ∀ (n : Nat) (s : TextScramble) (k : Nat),
    s.scheduled = true → s.frame + n ≤ maxEnd s.queue →
    (runFrames g n (s, k)).1.scheduled = true ∧
    (runFrames g n (s, k)).1.promises = s.promises ∧
    (runFrames g n (s, k)).1.frame = s.frame + n := by
  intro n
  induction n with
  | zero => intro s k hs _; simpa [runFrames] using hs
  | succ n ih =>
      intro s k hs hle
      have hall : ¬ ∀ t ∈ s.queue, t.endF ≤ s.frame := by
        intro hall
        have := (maxEnd_le_iff s.queue s.frame).2 hall
        omega
      have hupd := update_of_incomplete s g k hall
      have hmax2 : maxEnd (update s g k).1.queue = maxEnd s.queue :=
        maxEnd_eq_of_map_endF hupd.2.2.2.1
      have hle2 : (update s g k).1.frame + n ≤ maxEnd (update s g k).1.queue := by
        rw [hmax2, hupd.2.1]; omega
      have IH := ih (update s g k).1 (update s g k).2 hupd.1 hle2
      simp only [runFrames, hs, if_true]
      exact ⟨IH.1, IH.2.1.trans hupd.2.2.1, by rw [IH.2.2, hupd.2.1]; omega⟩

/-! ### Lemmas: the queue built by setText -/

@[simp] theorem setTextPre_fst_queue (s : TextScramble) (nt : List Char) (g : RNG)
    (k : Nat) :
    (setTextPre s nt g k).1.queue =
      (buildQueue (textContentOf s.el) nt g 0
        (max (textContentOf s.el).length nt.length) k).1 := rfl

theorem jsFloorMul_lt {r : Nat} (hr : r < 2 ^ 53) {n : Nat} (hn : 0 < n) :
    jsFloorMul r n < n := by
  unfold jsFloorMul
  rw [Nat.div_lt_iff_lt_mul (by positivity)]
  rw [Nat.mul_comm n (2 ^ 53)]
  exact mul_lt_mul_of_pos_right hr hn

theorem buildQueue_length (ot nt : List Char) (g : RNG) :
    ∀ (fuel i k : Nat), (buildQueue ot nt g i fuel k).1.length = fuel := by
  intro fuel
  induction fuel with
  | zero => intro i k; rfl
  | succ fuel ih => intro i k; simp [buildQueue, ih]

theorem buildQueue_bounds (ot nt : List Char) (g : RNG) (hg : validRNG g) :
    ∀ (fuel i k : Nat), ∀ t ∈ (buildQueue ot nt g i fuel k).1,
      t.start < 40 ∧ t.start ≤ t.endF ∧ t.endF < t.start + 40 ∧ t.endF < 80 := by
  intro fuel
  induction fuel with
  | zero => intro i k t ht; simp [buildQueue] at ht
  | succ fuel ih =>
      intro i k t ht
      simp only [buildQueue, List.mem_cons] at ht
      rcases ht with rfl | ht
      · have b1 : jsFloorMul (g k) 40 < 40 := jsFloorMul_lt (hg k) (by norm_num)
        have b2 : jsFloorMul (g (k + 1)) 40 < 40 := jsFloorMul_lt (hg (k + 1)) (by norm_num)
        dsimp only
        exact ⟨b1, Nat.le_add_right _ _, by omega, by omega⟩
      · exact ih _ _ t ht

theorem buildQueue_get?_fromTo (ot nt : List Char) (g : RNG) :
    ∀ (fuel i k j : Nat), j < fuel →
      ((buildQueue ot nt g i fuel k).1.get? j).map ScrambleTask.fromCh
          = some (ot.get? (i + j)) ∧
      ((buildQueue ot nt g i fuel k).1.get? j).map ScrambleTask.toCh
          = some (nt.get? (i + j)) := by
  intro fuel
  induction fuel with
  | zero => intro i k j h; omega
  | succ fuel ih =>
      intro i k j h
      cases j with
      | zero => simp [buildQueue]
      | succ j2 =>
          have h2 := ih (i + 1) (k + 2) j2 (by omega)
          have he : i + 1 + j2 = i + (j2 + 1) := by omega
          rw [he] at h2
          simpa only [buildQueue, List.get?_cons_succ] using h2

theorem buildQueue_toCh_flatten (ot nt : List Char) (g : RNG) :
    ∀ (fuel i k : Nat), nt.length ≤ i + fuel →
      ((buildQueue ot nt g i fuel k).1.map (fun t => t.toCh.toList)).flatten
        = nt.drop i := by
  intro fuel
  induction fuel with
  | zero =>
      intro i k h
      simp only [Nat.add_zero] at h
      simp [buildQueue, List.drop_eq_nil_of_le h]
  | succ fuel ih =>
      intro i k h
      have IH := ih (i + 1) (k + 2) (by omega)
      simp only [buildQueue, List.map_cons, List.flatten_cons, IH]
      by_cases hi : i < nt.length
      · rw [List.get?_eq_get hi]
        rw [List.drop_eq_getElem_cons hi]
        rfl
      · rw [List.get?_eq_none.2 (by omega)]
        rw [List.drop_eq_nil_of_le (by omega), List.drop_eq_nil_of_le (by omega)]
        rfl

/-! ### Lemmas: textContent of the final render -/

theorem textContentOf_append (a b : List Piece) :
    textContentOf (a ++ b) = textContentOf a ++ textContentOf b := by
  simp [textContentOf]

theorem textContentOf_finalRender (q : List ScrambleTask) :
    textContentOf (finalRender q) = (q.map (fun t => t.toCh.toList)).flatten := by
  induction q with
  | nil => rfl
  | cons t ts ih =>
      have hcons : finalRender (t :: ts) =
          (t.toCh.map Piece.plain).toList ++ finalRender ts := by
        simp [finalRender]
      rw [hcons, textContentOf_append, ih]
      simp only [List.map_cons, List.flatten_cons]
      congr 1
      cases t.toCh <;> rfl

/-! ### Lemmas: a full session run from setText -/

theorem setText_run_spec (s : TextScramble) (nt : List Char) (g : RNG) (k : Nat) :
    ∀ n, maxEnd (setTextPre s nt g k).1.queue ≤ n →
    (runFrames g n (setText s nt g k)).1.scheduled = false ∧
    (runFrames g n (setText s nt g k)).1.promises = s.promises ++ [1] ∧
    (runFrames g n (setText s nt g k)).1.el = finalRender (setTextPre s nt g k).1.queue ∧
    (runFrames g n (setText s nt g k)).1.queue.map ScrambleTask.toCh
      = (setTextPre s nt g k).1.queue.map ScrambleTask.toCh := by
  intro n hn
  have hset : setText s nt g k = update (setTextPre s nt g k).1 g (setTextPre s nt g k).2 :=
    rfl
  by_cases hall : ∀ t ∈ (setTextPre s nt g k).1.queue,
      t.endF ≤ (setTextPre s nt g k).1.frame
  · rw [hset, update_of_complete _ g _ hall, runFrames_unsched g n _ _ rfl]
    refine ⟨rfl, ?_, rfl, rfl⟩
    show bumpLast (setTextPre s nt g k).1.promises = s.promises ++ [1]
    rw [setTextPre_fst_promises, bumpLast_append]
  · have hupd := update_of_incomplete _ g (setTextPre s nt g k).2 hall
    have hmaxpos : ¬ maxEnd (setTextPre s nt g k).1.queue ≤ 0 := by
      intro hm
      exact hall (by simpa using (maxEnd_le_iff _ _).1 hm)
    have h1n : 1 ≤ n := by omega
    have hmax2 : maxEnd (update (setTextPre s nt g k).1 g (setTextPre s nt g k).2).1.queue
        = maxEnd (setTextPre s nt g k).1.queue := maxEnd_eq_of_map_endF hupd.2.2.2.1
    have hle : maxEnd (update (setTextPre s nt g k).1 g (setTextPre s nt g k).2).1.queue + 1
        ≤ (update (setTextPre s nt g k).1 g (setTextPre s nt g k).2).1.frame + n := by
      rw [hmax2, hupd.2.1, setTextPre_fst_frame]; omega
    have HC := runFrames_complete g n
      (update (setTextPre s nt g k).1 g (setTextPre s nt g k).2).1
      (update (setTextPre s nt g k).1 g (setTextPre s nt g k).2).2 hupd.1 h1n hle
    rw [Prod.mk.eta] at HC
    rw [hset]
    refine ⟨HC.1, ?_, ?_, ?_⟩
    · rw [HC.2.1, hupd.2.2.1, setTextPre_fst_promises, bumpLast_append]
    · rw [HC.2.2.1, finalRender_congr hupd.2.2.2.2]
    · rw [HC.2.2.2, hupd.2.2.2.2]

theorem setText_run_progress (s : TextScramble) (nt : List Char) (g : RNG) (k : Nat) :
    ∀ n, n < maxEnd (setTextPre s nt g k).1.queue →
    (runFrames g n (setText s nt g k)).1.scheduled = true ∧
    (runFrames g n (setText s nt g k)).1.promises = s.promises ++ [0] := by
  intro n hn
  have hset : setText s nt g k = update (setTextPre s nt g k).1 g (setTextPre s nt g k).2 :=
    rfl
  have hall : ¬ ∀ t ∈ (setTextPre s nt g k).1.queue,
      t.endF ≤ (setTextPre s nt g k).1.frame := by
    intro hall
    have := (maxEnd_le_iff _ _).2 hall
    rw [setTextPre_fst_frame] at this
    omega
  have hupd := update_of_incomplete _ g (setTextPre s nt g k).2 hall
  have hmax2 : maxEnd (update (setTextPre s nt g k).1 g (setTextPre s nt g k).2).1.queue
      = maxEnd (setTextPre s nt g k).1.queue := maxEnd_eq_of_map_endF hupd.2.2.2.1
  have hle : (update (setTextPre s nt g k).1 g (setTextPre s nt g k).2).1.frame + n
      ≤ maxEnd (update (setTextPre s nt g k).1 g (setTextPre s nt g k).2).1.queue := by
    rw [hmax2, hupd.2.1, setTextPre_fst_frame]; omega
  have HP := runFrames_progress g n
    (update (setTextPre s nt g k).1 g (setTextPre s nt g k).2).1
    (update (setTextPre s nt g k).1 g (setTextPre s nt g k).2).2 hupd.1 hle
  rw [Prod.mk.eta] at HP
  rw [hset]
  exact ⟨HP.1, HP.2.1.trans (hupd.2.2.1.trans (setTextPre_fst_promises s nt g k))⟩

/-! ### Claim theorems -/

/-- C2: for every old displayed text and every `newText`, `setText` builds a
session whose task sequence has length `max(len(oldText), len(newText))`,
where position `i` has `from = oldText[i]` (empty once `i ≥ len(oldText)`)
and `to = newText[i]` (empty once `i ≥ len(newText)`). -/
theorem setText_session_shape (s : TextScramble) (nt : List Char) (g : RNG) (k : Nat) :
    (setTextPre s nt g k).1.queue.length
        = max (textContentOf s.el).length nt.length ∧
    ∀ i, i < (setTextPre s nt g k).1.queue.length →
      ((setTextPre s nt g k).1.queue.get? i).map ScrambleTask.fromCh
          = some ((textContentOf s.el).get? i) ∧
      ((setTextPre s nt g k).1.queue.get? i).map ScrambleTask.toCh
          = some (nt.get? i) := by
  constructor
  · rw [setTextPre_fst_queue, buildQueue_length]
  · intro i hi
    rw [setTextPre_fst_queue] at hi ⊢
    rw [buildQueue_length] at hi
    have h2 := buildQueue_get?_fromTo (textContentOf s.el) nt g
      (max (textContentOf s.el).length nt.length) 0 k i hi
    simpa using h2

/-- Witness for C2: concrete old text "AB", new text "X" — length 2, task 1
has `from = 'B'`, `to` empty. -/
theorem setText_session_shape_witness :
    (1 < (setTextPre (TextScramble.init [Piece.plain 'A', Piece.plain 'B']) ['X']
        (fun _ => 0) 0).1.queue.length) ∧
    ((setTextPre (TextScramble.init [Piece.plain 'A', Piece.plain 'B']) ['X']
        (fun _ => 0) 0).1.queue.get? 1).map ScrambleTask.fromCh
      = some ((textContentOf
          (TextScramble.init [Piece.plain 'A', Piece.plain 'B']).el).get? 1) :=
  ⟨by decide,
   ((setText_session_shape (TextScramble.init [Piece.plain 'A', Piece.plain 'B']) ['X']
      (fun _ => 0) 0).2 1 (by decide)).1⟩

/-- C7: every task created by `setText` has an integer `start ∈ [0,40)` and
`end ∈ [start, start+40)`, hence `start ≤ end` and `end < 80`. -/
theorem setText_task_bounds (s : TextScramble) (nt : List Char) (g : RNG) (k : Nat)
    (hg : validRNG g) :
    ∀ t ∈ (setTextPre s nt g k).1.queue,
      t.start < 40 ∧ t.start ≤ t.endF ∧ t.endF < t.start + 40 ∧ t.endF < 80 := by
  rw [setTextPre_fst_queue]
  exact buildQueue_bounds _ nt g hg _ 0 k

/-- Witness for C7 at a concrete stream and text. -/
theorem setText_task_bounds_witness :
    validRNG (fun _ => 2 ^ 48) ∧
    (∀ t ∈ (setTextPre (TextScramble.init []) ['A'] (fun _ => 2 ^ 48) 0).1.queue,
      t.start < 40 ∧ t.start ≤ t.endF ∧ t.endF < t.start + 40 ∧ t.endF < 80) :=
  ⟨by intro n; norm_num,
   setText_task_bounds (TextScramble.init []) ['A'] (fun _ => 2 ^ 48) 0
     (by intro n; norm_num)⟩

/-- C9: starting a word-rotation cycle with an empty word list performs no
work: `initKineticText` constructs no rotator and initiates no transition,
and nothing is thrown — a defined no-op, not an error. -/
theorem initRotate_empty_noop (el : List Piece) (interval : Nat) (g : RNG) (k : Nat) :
    initRotate el [] interval g k = .ok none := rfl

/-- C5: a session run to completion uninterrupted renders exactly the `to`
characters of its tasks (nothing for removed positions), so the element's
text content equals `newText`. -/
theorem session_completes_to_newText (s : TextScramble) (nt : List Char) (g : RNG)
    (k n : Nat) (hn : maxEnd (setTextPre s nt g k).1.queue ≤ n) :
    (runFrames g n (setText s nt g k)).1.el
        = finalRender (setTextPre s nt g k).1.queue ∧
    textContentOf (runFrames g n (setText s nt g k)).1.el = nt := by
  have H := setText_run_spec s nt g k n hn
  refine ⟨H.2.2.1, ?_⟩
  rw [H.2.2.1, textContentOf_finalRender, setTextPre_fst_queue]
  have h2 := buildQueue_toCh_flatten (textContentOf s.el) nt g
    (max (textContentOf s.el).length nt.length) 0 k
    (by simp [Nat.le_max_right])
  simpa using h2

/-- Witness for C5: the spec's concrete scenario — current text "AB",
`setText("")`: session length 2, both tasks have empty `to`, final rendered
text is the empty string. -/
theorem session_completes_to_newText_witness :
    (maxEnd (setTextPre (TextScramble.init [Piece.plain 'A', Piece.plain 'B']) []
        (fun _ => 2 ^ 48) 0).1.queue ≤ 2) ∧
    ((setTextPre (TextScramble.init [Piece.plain 'A', Piece.plain 'B']) []
        (fun _ => 2 ^ 48) 0).1.queue.length = 2) ∧
    ((setTextPre (TextScramble.init [Piece.plain 'A', Piece.plain 'B']) []
        (fun _ => 2 ^ 48) 0).1.queue.map ScrambleTask.toCh = [none, none]) ∧
    textContentOf (runFrames (fun _ => 2 ^ 48) 2
        (setText (TextScramble.init [Piece.plain 'A', Piece.plain 'B']) []
          (fun _ => 2 ^ 48) 0)).1.el = [] :=
  ⟨by decide, by decide, by decide,
   (session_completes_to_newText (TextScramble.init [Piece.plain 'A', Piece.plain 'B'])
      [] (fun _ => 2 ^ 48) 0 2 (by decide)).2⟩

/-- C1: the completion notification of a `setText` session is fulfilled
exactly once — while any task still has `frame < end` the count is 0 and a
further frame is scheduled; from the first frame at which every task has
`frame ≥ end` the count is 1, no further frame is scheduled, and the state is
a fixed point of the driver; and a per-frame update resolves the current
promise precisely when the `complete` counter equals the session length,
i.e. when every task satisfies `frame ≥ end`. -/
theorem setText_resolves_exactly_once (s : TextScramble) (nt : List Char) (g : RNG)
    (k : Nat) :
    (∀ n, n < maxEnd (setTextPre s nt g k).1.queue →
        (runFrames g n (setText s nt g k)).1.scheduled = true ∧
        currentCount (runFrames g n (setText s nt g k)).1 = 0) ∧
    (∀ n, maxEnd (setTextPre s nt g k).1.queue ≤ n →
        (runFrames g n (setText s nt g k)).1.scheduled = false ∧
        currentCount (runFrames g n (setText s nt g k)).1 = 1 ∧
        (∀ m, runFrames g m (runFrames g n (setText s nt g k))
            = runFrames g n (setText s nt g k))) ∧
    (∀ (s' : TextScramble) (k' : Nat), s'.promises ≠ [] →
        ((currentCount (update s' g k').1 = currentCount s' + 1 ↔
            (updateTasks s'.frame g s'.queue k').2.2.1 = s'.queue.length) ∧
         ((updateTasks s'.frame g s'.queue k').2.2.1 = s'.queue.length ↔
            ∀ t ∈ s'.queue, t.endF ≤ s'.frame) ∧
         ((∀ t ∈ s'.queue, t.endF ≤ s'.frame) →
            (update s' g k').1.scheduled = false))) := by
  refine ⟨?_, ?_, ?_⟩
  · intro n hn
    have H := setText_run_progress s nt g k n hn
    refine ⟨H.1, ?_⟩
    rw [currentCount, H.2, List.getLast?_concat]
    rfl
  · intro n hn
    have H := setText_run_spec s nt g k n hn
    refine ⟨H.1, ?_, ?_⟩
    · rw [currentCount, H.2.1, List.getLast?_concat]
      rfl
    · intro m
      rcases hE : runFrames g n (setText s nt g k) with ⟨st, kk⟩
      have hsch := H.1
      rw [hE] at hsch
      exact runFrames_unsched g m st kk hsch
  · intro s' k' hne
    refine ⟨?_, updateTasks_comp_eq_length_iff s'.frame g s'.queue k', 
      update_scheduled_of_complete s' g k'⟩
    rw [update_currentCount_iff s' g k' hne]
    exact (updateTasks_comp_eq_length_iff s'.frame g s'.queue k').symm

/-- Witness for C1 at a concrete session (maxEnd = 2): count 0 with a frame
scheduled before completion, count 1 and unscheduled from frame 2 on. -/
theorem setText_resolves_exactly_once_witness :
    (0 < maxEnd (setTextPre (TextScramble.init []) ['A'] (fun _ => 2 ^ 48) 0).1.queue) ∧
    currentCount (runFrames (fun _ => 2 ^ 48) 0
      (setText (TextScramble.init []) ['A'] (fun _ => 2 ^ 48) 0)).1 = 0 ∧
    (maxEnd (setTextPre (TextScramble.init []) ['A'] (fun _ => 2 ^ 48) 0).1.queue ≤ 2) ∧
    currentCount (runFrames (fun _ => 2 ^ 48) 2
      (setText (TextScramble.init []) ['A'] (fun _ => 2 ^ 48) 0)).1 = 1 :=
  ⟨by decide,
   ((setText_resolves_exactly_once (TextScramble.init []) ['A'] (fun _ => 2 ^ 48) 0).1
      0 (by decide)).2,
   by decide,
   ((setText_resolves_exactly_once (TextScramble.init []) ['A'] (fun _ => 2 ^ 48) 0).2.1
      2 (by decide)).2.1⟩

theorem update_queue_eq (s : TextScramble) (g : RNG) (k : Nat) :
    (update s g k).1.queue = (updateTasks s.frame g s.queue k).1 := by
  unfold update
  dsimp only
  split <;> rfl

theorem runFrames_frozen_invariant (g : RNG) : ∀ (m : Nat) (s : TextScramble)
    (k i : Nat) (t : ScrambleTask), s.queue.get? i = some t → t.endF ≤ s.frame →
    (runFrames g m (s, k)).1.queue.get? i = some t ∧
    t.endF ≤ (runFrames g m (s, k)).1.frame := by
  intro m
  induction m with
  | zero => intro s k i t h1 h2; exact ⟨h1, h2⟩
  | succ m ih =>
      intro s k i t h1 h2
      by_cases hs : s.scheduled
      · simp only [runFrames, hs, if_true]
        have hq := updateTasks_get?_frozen s.frame g s.queue k i t h1 h2
        have hq2 : (update s g k).1.queue.get? i = some t := by
          rw [update_queue_eq]
          exact hq.1
        have hf : t.endF ≤ (update s g k).1.frame :=
          le_trans h2 (update_frame_mono s g k)
        exact ih (update s g k).1 (update s g k).2 i t hq2 hf
      · simp only [Bool.not_eq_true] at hs
        rw [runFrames_unsched g (m + 1) s k hs]
        exact ⟨h1, h2⟩

/-- C6: once a position's task satisfies `frame ≥ end`, that position emits
its `to` character at that frame, the frame counter never decreases across
updates, and at every subsequent frame of the session the task is unchanged,
still satisfies `frame ≥ end`, and still emits exactly its `to` character. -/
theorem frozen_position_emits_to_permanently (s : TextScramble) (g : RNG)
    (k i : Nat) (t : ScrambleTask) (hq : s.queue.get? i = some t)
    (hfz : t.endF ≤ s.frame) :
    (∀ (j : Nat), (updateTasks s.frame g s.queue j).2.1.get? i
        = some ((t.toCh.map Piece.plain).toList)) ∧
    (∀ (j : Nat), s.frame ≤ (update s g j).1.frame) ∧
    (∀ (m : Nat),
      (runFrames g m (s, k)).1.queue.get? i = some t ∧
      t.endF ≤ (runFrames g m (s, k)).1.frame ∧
      ∀ (j : Nat), (updateTasks (runFrames g m (s, k)).1.frame g
          (runFrames g m (s, k)).1.queue j).2.1.get? i
        = some ((t.toCh.map Piece.plain).toList)) := by
  refine ⟨?_, fun j => update_frame_mono s g j, ?_⟩
  · intro j
    exact (updateTasks_get?_frozen s.frame g s.queue j i t hq hfz).2
  · intro m
    have H := runFrames_frozen_invariant g m s k i t hq hfz
    exact ⟨H.1, H.2,
      fun j => (updateTasks_get?_frozen _ g _ j i t H.1 H.2).2⟩

/-- Witness for C6 at a concrete frozen task. -/
theorem frozen_position_emits_to_permanently_witness :
    (({ el := [], frame := 5, queue := [⟨some 'A', some 'B', 1, 2, none⟩],
        scheduled := true, promises := [0] } : TextScramble).queue.get? 0
      = some ⟨some 'A', some 'B', 1, 2, none⟩) ∧
    ((⟨some 'A', some 'B', 1, 2, none⟩ : ScrambleTask).endF ≤ 5) ∧
    (updateTasks 5 (fun _ => 2 ^ 48) [⟨some 'A', some 'B', 1, 2, none⟩] 0).2.1.get? 0
      = some [Piece.plain 'B'] :=
  ⟨by decide, by decide,
   (frozen_position_emits_to_permanently
      { el := [], frame := 5, queue := [⟨some 'A', some 'B', 1, 2, none⟩],
        scheduled := true, promises := [0] } (fun _ => 2 ^ 48) 0 0
      ⟨some 'A', some 'B', 1, 2, none⟩ (by decide) (by decide)).1 0⟩

theorem pickChar_mem {r : Nat} (hr : r < 2 ^ 53) :
    ∃ c, pickChar r = some c ∧ c ∈ scrambleChars := by
  have hlt : jsFloorMul r scrambleChars.length < scrambleChars.length :=
    jsFloorMul_lt hr (by decide)
  rw [pickChar, List.get?_eq_get hlt]
  exact ⟨_, rfl, List.get_mem _ _ _⟩

/-- C8: in the resolving phase (`start ≤ frame < end`) a position emits
exactly one span-wrapped character that belongs to the fixed glyph set
`!<>-_\\/[]{}—=+*^?#` (the glyph index is always in bounds, so it is never
`undefined`); a freshly stored `char` always belongs to the glyph set (so the
invariant needed for the "kept" character is preserved); and a position with
`frame < start` emits its unmodified `from` character. -/
theorem resolving_phase_emission (f : Nat) (g : RNG) (t : ScrambleTask) (k : Nat)
    (hg : validRNG g) (hcv : ∀ c, t.char = some c → c ∈ scrambleChars) :
    (t.start ≤ f → f < t.endF →
      ∃ c, (stepTask f g t k).2.1 = [Piece.scramble (some c)] ∧ c ∈ scrambleChars) ∧
    (∀ c, (stepTask f g t k).1.char = some c → c ∈ scrambleChars) ∧
    (f < t.start → f < t.endF →
      (stepTask f g t k).2.1 = (t.fromCh.map Piece.plain).toList) := by
  refine ⟨?_, ?_, fun h1 h2 => by rw [stepTask_pending f g t k h1 h2]⟩
  · intro h1 h2
    have hne : ¬ t.endF ≤ f := Nat.not_le.2 h2
    rcases hch : t.char with _ | c0
    · obtain ⟨c, hc, hmem⟩ := pickChar_mem (hg k)
      refine ⟨c, ?_, hmem⟩
      simp [stepTask, hne, h1, hch, hc]
    · by_cases hp : randBelow28 (g k)
      · obtain ⟨c, hc, hmem⟩ := pickChar_mem (hg (k + 1))
        refine ⟨c, ?_, hmem⟩
        simp [stepTask, hne, h1, hch, hp, hc]
      · refine ⟨c0, ?_, hcv c0 hch⟩
        simp [stepTask, hne, h1, hch, hp]
  · intro c hc
    by_cases he : t.endF ≤ f
    · rw [stepTask_frozen f g t k he] at hc
      exact hcv c hc
    · by_cases h1 : t.start ≤ f
      · rcases hch : t.char with _ | c0
        · obtain ⟨c', hc', hmem⟩ := pickChar_mem (hg k)
          have hcc : (stepTask f g t k).1.char = pickChar (g k) := by
            simp [stepTask, he, h1, hch]
          rw [hcc, hc'] at hc
          exact Option.some.inj hc ▸ hmem
        · by_cases hp : randBelow28 (g k)
          · obtain ⟨c', hc', hmem⟩ := pickChar_mem (hg (k + 1))
            have hcc : (stepTask f g t k).1.char = pickChar (g (k + 1)) := by
              simp [stepTask, he, h1, hch, hp]
            rw [hcc, hc'] at hc
            exact Option.some.inj hc ▸ hmem
          · have hcc : (stepTask f g t k).1.char = t.char := by
              simp [stepTask, he, h1, hch, hp]
            rw [hcc] at hc
            exact hcv c hc
      · rw [stepTask_pending f g t k (Nat.not_le.1 h1) (Nat.not_le.1 he)] at hc
        exact hcv c hc

/-- Witness for C8 at a concrete resolving task. -/
theorem resolving_phase_emission_witness :
    validRNG (fun _ => 2 ^ 48) ∧
    (∃ c, (stepTask 1 (fun _ => 2 ^ 48) ⟨some 'A', some 'B', 1, 2, none⟩ 0).2.1
        = [Piece.scramble (some c)] ∧ c ∈ scrambleChars) :=
  ⟨by intro n; norm_num,
   (resolving_phase_emission 1 (fun _ => 2 ^ 48) ⟨some 'A', some 'B', 1, 2, none⟩ 0
      (by intro n; norm_num) (fun c h => Option.noConfusion h)).1
     (by decide) (by decide)⟩

theorem setText_unfold (s : TextScramble) (nt : List Char) (g : RNG) (k : Nat) :
    setText s nt g k
      = update (setTextPre s nt g k).1 g (setTextPre s nt g k).2 := rfl

theorem applySOp_preserves_nonlast (g : RNG) (o : SOp) (s : TextScramble) (k i : Nat)
    (h : i + 1 < s.promises.length) :
    (applySOp g o (s, k)).1.promises.get? i = s.promises.get? i ∧
    i + 1 < (applySOp g o (s, k)).1.promises.length := by
  cases o with
  | frameFire =>
      by_cases hs : s.scheduled
      · simp only [applySOp, hs, if_true]
        rcases update_promises_cases s g k with hp | hp
        · rw [hp]; exact ⟨rfl, h⟩
        · rw [hp, bumpLast_length]
          exact ⟨bumpLast_get?_lt s.promises i h, h⟩
      · simp only [Bool.not_eq_true] at hs
        simp [applySOp, hs, h]
  | set t =>
      have hi : i < s.promises.length := by omega
      simp only [applySOp, setText_unfold]
      rcases update_promises_cases (setTextPre s t g k).1 g (setTextPre s t g k).2
        with hp | hp
      · rw [hp, setTextPre_fst_promises]
        refine ⟨List.get?_append hi, by simp; omega⟩
      · rw [hp, setTextPre_fst_promises, bumpLast_append]
        refine ⟨List.get?_append hi, by simp; omega⟩

theorem applySOps_preserves_nonlast (g : RNG) : ∀ (ops : List SOp) (s : TextScramble)
    (k i : Nat), i + 1 < s.promises.length →
    (applySOps g ops (s, k)).1.promises.get? i = s.promises.get? i ∧
    i + 1 < (applySOps g ops (s, k)).1.promises.length := by
  intro ops
  induction ops with
  | nil => intro s k i h; exact ⟨rfl, h⟩
  | cons o os ih =>
      intro s k i h
      have H1 := applySOp_preserves_nonlast g o s k i h
      rcases hE : applySOp g o (s, k) with ⟨s2, k2⟩
      rw [hE] at H1
      have H2 := ih s2 k2 i H1.2
      simp only [applySOps, hE]
      exact ⟨H2.1.trans H1.1, H2.2⟩

/-- C3: at most one transition session is active at a time.  Calling
`setText` while a prior session is in flight cancels the scheduled frame
callback and resets the frame counter to 0; every task of the new session
takes its `from` character from the text rendered at the moment of
interruption; and the prior session's promise — unresolved at interruption —
is never resolved afterwards, whatever sequence of frames and further
`setText` calls follows. -/
theorem setText_interrupts_prior_session (s : TextScramble) (nt : List Char) (g : RNG)
    (k : Nat) (hne : s.promises ≠ []) (hc : currentCount s = 0) :
    (setTextPre s nt g k).1.frame = 0 ∧
    (setTextPre s nt g k).1.scheduled = false ∧
    (∀ i, i < (setTextPre s nt g k).1.queue.length →
        ((setTextPre s nt g k).1.queue.get? i).map ScrambleTask.fromCh
          = some ((textContentOf s.el).get? i)) ∧
    (∀ ops, (applySOps g ops (setText s nt g k)).1.promises.get?
        (s.promises.length - 1) = some 0) := by
  refine ⟨rfl, rfl, fun i hi => ((setText_session_shape s nt g k).2 i hi).1, ?_⟩
  intro ops
  have hL : 0 < s.promises.length := List.length_pos.2 hne
  have hval : s.promises.get? (s.promises.length - 1) = some 0 := by
    obtain ⟨v, hv⟩ := Option.ne_none_iff_exists'.1
      (mt List.getLast?_eq_none_iff.1 hne)
    have hv0 : v = 0 := by
      rw [currentCount, hv] at hc
      simpa using hc
    rw [← List.getLast?_eq_get?, hv, hv0]
  have hpro : (setText s nt g k).1.promises.get? (s.promises.length - 1) = some 0 ∧
      (s.promises.length - 1) + 1 < (setText s nt g k).1.promises.length := by
    rw [setText_unfold]
    rcases update_promises_cases (setTextPre s nt g k).1 g (setTextPre s nt g k).2
      with hp | hp
    · rw [hp, setTextPre_fst_promises]
      exact ⟨(List.get?_append (by omega)).trans hval, by simp; omega⟩
    · rw [hp, setTextPre_fst_promises, bumpLast_append]
      exact ⟨(List.get?_append (by omega)).trans hval, by simp; omega⟩
  rcases hE : setText s nt g k with ⟨s2, k2⟩
  rw [hE] at hpro
  have H := applySOps_preserves_nonlast g ops s2 k2 (s.promises.length - 1) hpro.2
  rw [H.1, hpro.1]

/-- Witness for C3: prior session with one unresolved promise; after the
interrupting `setText` and one further frame, the prior promise still reads 0
resolutions. -/
theorem setText_interrupts_prior_session_witness :
    (sampleMid.promises ≠ []) ∧
    (currentCount sampleMid = 0) ∧
    (applySOps (fun _ => 2 ^ 48) [SOp.frameFire]
        (setText sampleMid ['B'] (fun _ => 2 ^ 48) 0)).1.promises.get? 0
      = some 0 :=
  ⟨by decide, by decide,
   (setText_interrupts_prior_session sampleMid ['B'] (fun _ => 2 ^ 48) 0
      (by decide) (by decide)).2.2.2 [SOp.frameFire]⟩

/-- C10: for a rotator over a non-empty word list, `0 ≤ currentIndex <
words.length` holds after construction and is preserved by every `next()`:
the step reads the defined word `words[currentIndex]`, starts the transition
to it, and — within the same synchronous step, before the completion
continuation (still attached and unfired) runs — advances `currentIndex` by
exactly one modulo the list length. -/
theorem wordRotator_index_invariant :
    (∀ (r : WordRotator) (g : RNG) (k : Nat), r.currentIndex < r.words.length →
      ∃ w, r.words.get? r.currentIndex = some w ∧
        WordRotator.next r g k =
          .ok ({ r with scr := (setText r.scr w g k).1,
                        handlerFor :=
                          some ((setText r.scr w g k).1.promises.length - 1),
                        currentIndex := (r.currentIndex + 1) % r.words.length },
               (setText r.scr w g k).2) ∧
        (r.currentIndex + 1) % r.words.length < r.words.length) ∧
    (∀ (el : List Piece) (words : List (List Char)) (iv : Nat) (g : RNG) (k : Nat),
      words ≠ [] →
      ∃ r' k', WordRotator.create el words iv g k = .ok (r', k') ∧
        r'.currentIndex < words.length ∧ r'.words = words) := by
  have P1 : ∀ (r : WordRotator) (g : RNG) (k : Nat),
      r.currentIndex < r.words.length →
      ∃ w, r.words.get? r.currentIndex = some w ∧
        WordRotator.next r g k =
          .ok ({ r with scr := (setText r.scr w g k).1,
                        handlerFor :=
                          some ((setText r.scr w g k).1.promises.length - 1),
                        currentIndex := (r.currentIndex + 1) % r.words.length },
               (setText r.scr w g k).2) ∧
        (r.currentIndex + 1) % r.words.length < r.words.length := by
    intro r g k hi
    refine ⟨r.words.get ⟨r.currentIndex, hi⟩, List.get?_eq_get hi, ?_,
      Nat.mod_lt _ (by omega)⟩
    rw [WordRotator.next, List.get?_eq_get hi]
  refine ⟨P1, ?_⟩
  intro el words iv g k hne
  have hlen : 0 < words.length := List.length_pos.2 hne
  obtain ⟨w, hw, hnext, hinv⟩ := P1
    { scr := TextScramble.init el, words := words, currentIndex := 0,
      interval := iv, timeoutPending := false, handlerFor := none } g k hlen
  exact ⟨_, _, hnext, hinv, rfl⟩

/-- Witness for C10: a concrete two-word rotator is constructed with its
index inside bounds. -/
theorem wordRotator_index_invariant_witness :
    (([['A'], ['B']] : List (List Char)) ≠ []) ∧
    (∃ r' k', WordRotator.create [] [['A'], ['B']] 3000 (fun _ => 0) 0
        = .ok (r', k') ∧
      r'.currentIndex < ([['A'], ['B']] : List (List Char)).length ∧
      r'.words = [['A'], ['B']]) :=
  ⟨by decide,
   wordRotator_index_invariant.2 [] [['A'], ['B']] 3000 (fun _ => 0) 0 (by decide)⟩

theorem setText_promises_length (s : TextScramble) (nt : List Char) (g : RNG)
    (k : Nat) :
    (setText s nt g k).1.promises.length = s.promises.length + 1 := by
  rw [setText_unfold]
  rcases update_promises_cases (setTextPre s nt g k).1 g (setTextPre s nt g k).2
    with hp | hp
  · rw [hp, setTextPre_fst_promises]; simp
  · rw [hp, bumpLast_length, setTextPre_fst_promises]; simp

theorem rotFrames_scr (g : RNG) : ∀ (n : Nat) (r : WordRotator) (k : Nat),
    rotFrames g n (r, k)
      = ({ r with scr := (runFrames g n (r.scr, k)).1 },
         (runFrames g n (r.scr, k)).2) := by
  intro n
  induction n with
  | zero => intro r k; rfl
  | succ n ih =>
      intro r k
      by_cases hs : r.scr.scheduled
      · show rotFrames g n (WordRotator.fireFrame r g k) = _
        rw [WordRotator.fireFrame]
        simp only [hs, if_true]
        rw [ih]
        simp only [runFrames, hs, if_true]
      · simp only [Bool.not_eq_true] at hs
        show rotFrames g n (WordRotator.fireFrame r g k) = _
        rw [WordRotator.fireFrame]
        simp only [hs, Bool.false_eq_true, if_false]
        rw [ih, runFrames_unsched g n r.scr k hs,
            runFrames_unsched g (n + 1) r.scr k hs]

/-- Counterexample to C4 as stated: under the constant stream `2^48`, the
first transition (to "A", `start = 1`, `end = 2`) is in flight (scheduled,
unresolved) when `stop()` is called; yet after two further animation frames
the transition completes, the microtask re-arms the delayed advance, the
timeout fires, and a *second* transition (to "B") begins: the session count
rises from 1 to 2 after `stop()`, with only host events in between. -/
theorem wordRotator_stop_counterexample :
    ((WordRotator.create [] [['A'], ['B']] 3000 (fun _ => 2 ^ 48) 0).map
        (fun rk => (rk.1.scr.scheduled, currentCount rk.1.scr,
                    rk.1.scr.promises.length))
      = .ok (true, 0, 1)) ∧
    ((applyROps (fun _ => 2 ^ 48)
        [.stopCall, .frameFire, .frameFire, .microFire, .timeoutFire]
        (WordRotator.create [] [['A'], ['B']] 3000 (fun _ => 2 ^ 48) 0)).map
        (fun rk => (rk.1.scr.promises.length,
                    rk.1.scr.queue.map ScrambleTask.toCh,
                    textContentOf rk.1.scr.el))
      = .ok (2, [some 'B'], ['A'])) :=
  ⟨rfl, rfl⟩

theorem next_ok (r : WordRotator) (g : RNG) (k : Nat) (w2 : List Char)
    (hw : r.words.get? r.currentIndex = some w2) :
    WordRotator.next r g k =
      .ok ({ r with scr := (setText r.scr w2 g k).1,
                    handlerFor :=
                      some ((setText r.scr w2 g k).1.promises.length - 1),
                    currentIndex := (r.currentIndex + 1) % r.words.length },
           (setText r.scr w2 g k).2) := by
  rw [WordRotator.next, hw]

theorem microtask_fires (r : WordRotator) (i : Nat) (hh : r.handlerFor = some i)
    (hres : 1 ≤ (r.scr.promises.get? i).getD 0) :
    WordRotator.microtask r
      = { r with timeoutPending := true, handlerFor := none } := by
  have hif : WordRotator.microtask r
      = if 1 ≤ (r.scr.promises.get? i).getD 0 then
          { r with timeoutPending := true, handlerFor := none }
        else r := by
    unfold WordRotator.microtask
    rw [hh]
  rw [hif, if_pos hres]

theorem fireTimeout_fires (r : WordRotator) (g : RNG) (k : Nat)
    (h : r.timeoutPending = true) :
    WordRotator.fireTimeout r g k
      = WordRotator.next { r with timeoutPending := false } g k := by
  unfold WordRotator.fireTimeout
  rw [h]
  simp

/-- C4 (amended): if `stop()` is called while a scramble transition is in
flight, it cancels only the live delayed-advance timeout: the in-flight
transition is untouched, still runs to completion and renders its target
word — but the completion continuation attached by `next()` is still
pending, so on completion the microtask re-arms the delayed advance, and
when that timeout fires a further transition does begin. -/
theorem wordRotator_stop_during_transition (r0 : WordRotator) (g : RNG) (k0 : Nat)
    (w : List Char) (hw : r0.words.get? r0.currentIndex = some w)
    (r : WordRotator) (k1 : Nat)
    (hnext : WordRotator.next r0 g k0 = .ok (r, k1)) :
    (WordRotator.stopRot r).scr = r.scr ∧
    (WordRotator.stopRot r).handlerFor = r.handlerFor ∧
    (WordRotator.stopRot r).timeoutPending = false ∧
    (∀ n, maxEnd (setTextPre r0.scr w g k0).1.queue ≤ n →
      textContentOf (rotFrames g n (WordRotator.stopRot r, k1)).1.scr.el = w ∧
      (rotFrames g n (WordRotator.stopRot r, k1)).1.scr.scheduled = false ∧
      (WordRotator.microtask
          (rotFrames g n (WordRotator.stopRot r, k1)).1).timeoutPending = true ∧
      ∃ r2 k2, WordRotator.fireTimeout
          (WordRotator.microtask (rotFrames g n (WordRotator.stopRot r, k1)).1) g
          (rotFrames g n (WordRotator.stopRot r, k1)).2 = .ok (r2, k2) ∧
        r2.scr.promises.length = r.scr.promises.length + 1) := by
  rw [WordRotator.next, hw] at hnext
  simp only [Except.ok.injEq, Prod.mk.injEq] at hnext
  obtain ⟨hr, hk⟩ := hnext
  subst hr
  subst hk
  refine ⟨rfl, rfl, rfl, ?_⟩
  intro n hn
  have H := setText_run_spec r0.scr w g k0 n hn
  have hrw : rotFrames g n (WordRotator.stopRot
      { r0 with scr := (setText r0.scr w g k0).1,
                handlerFor := some ((setText r0.scr w g k0).1.promises.length - 1),
                currentIndex := (r0.currentIndex + 1) % r0.words.length },
      (setText r0.scr w g k0).2)
      = ({ r0 with scr := (runFrames g n (setText r0.scr w g k0)).1,
                   handlerFor :=
                     some ((setText r0.scr w g k0).1.promises.length - 1),
                   currentIndex := (r0.currentIndex + 1) % r0.words.length,
                   timeoutPending := false },
         (runFrames g n (setText r0.scr w g k0)).2) := by
    rw [rotFrames_scr]
    rfl
  rw [hrw]
  have hget : (runFrames g n (setText r0.scr w g k0)).1.promises.get?
      ((setText r0.scr w g k0).1.promises.length - 1) = some 1 := by
    rw [setText_promises_length, Nat.add_sub_cancel, H.2.1, List.get?_concat_length]
  have hmt := microtask_fires
    { r0 with scr := (runFrames g n (setText r0.scr w g k0)).1,
              handlerFor := some ((setText r0.scr w g k0).1.promises.length - 1),
              currentIndex := (r0.currentIndex + 1) % r0.words.length,
              timeoutPending := false }
    ((setText r0.scr w g k0).1.promises.length - 1) rfl
    (by dsimp only; rw [hget]; simp)
  refine ⟨?_, H.1, ?_, ?_⟩
  · show textContentOf (runFrames g n (setText r0.scr w g k0)).1.el = w
    rw [H.2.2.1, textContentOf_finalRender, setTextPre_fst_queue]
    have h2 := buildQueue_toCh_flatten (textContentOf r0.scr.el) w g
      (max (textContentOf r0.scr.el).length w.length) 0 k0
      (by simp [Nat.le_max_right])
    simpa using h2
  · rw [hmt]
  · rw [hmt]
    have hlen0 : r0.currentIndex < r0.words.length := by
      by_contra hge
      rw [List.get?_eq_none.2 (by omega)] at hw
      cases hw
    have hi2 : (r0.currentIndex + 1) % r0.words.length < r0.words.length :=
      Nat.mod_lt _ (by omega)
    have hw2 : r0.words.get? ((r0.currentIndex + 1) % r0.words.length)
        = some (r0.words.get ⟨(r0.currentIndex + 1) % r0.words.length, hi2⟩) :=
      List.get?_eq_get hi2
    rw [fireTimeout_fires _ g _ rfl]
    have hnx := next_ok
      { r0 with scr := (runFrames g n (setText r0.scr w g k0)).1,
                handlerFor := none,
                currentIndex := (r0.currentIndex + 1) % r0.words.length,
                timeoutPending := false }
      g (runFrames g n (setText r0.scr w g k0)).2
      (r0.words.get ⟨(r0.currentIndex + 1) % r0.words.length, hi2⟩) hw2
    refine ⟨_, _, hnx, ?_⟩
    rw [setText_promises_length, setText_promises_length]
    dsimp only
    rw [H.2.1]
    simp

/-- Witness for the amended C4 at the concrete two-word rotator: the stopped
in-flight transition still completes and renders "A". -/
theorem wordRotator_stop_during_transition_witness :
    (sampleRotator.words.get? sampleRotator.currentIndex = some ['A']) ∧
    (WordRotator.next sampleRotator (fun _ => 2 ^ 48) 0
      = .ok (sampleRotatorMid, 2)) ∧
    (maxEnd (setTextPre sampleRotator.scr ['A'] (fun _ => 2 ^ 48) 0).1.queue ≤ 2) ∧
    textContentOf (rotFrames (fun _ => 2 ^ 48) 2
        (WordRotator.stopRot sampleRotatorMid, 2)).1.scr.el = ['A'] :=
  ⟨rfl, by rfl, by decide,
   ((wordRotator_stop_during_transition sampleRotator (fun _ => 2 ^ 48) 0 ['A'] rfl
      sampleRotatorMid 2 (by rfl)).2.2.2 2 (by decide)).1⟩
